import Mathlib

/-!
Shallow embedding of the invoice-extraction pipeline (ollama_run.py).

The script enumerates PDF files in a folder, rasterizes each page to a PNG
(via PyMuPDF), shells out to an external model runner per rendered page, and
collects the standard output of each invocation into a per-document results
file.  The embedding models the filesystem as a finite association list from
path to content, and the three external effects (opening or rendering a PDF,
saving a pixmap, invoking the model runner) as oracle functions collected in
an environment record.  Fallible external calls return `Except Unit`, the
error standing for the Python exception (`fitz` errors, `FileNotFoundError`).
Directory creation is tracked as a list of created directory paths.
-/

namespace InvoicePipeline

/-- A filesystem: a finite association list from file path to file content.
A write to an existing path replaces the content in place; a write to a new
path adds an entry at the front. -/
abbrev FS := List (String × String)

/-- Write a file at path `p` with content `c`. -/
def FS.write (fs : FS) (p c : String) : FS :=
  if fs.any (fun e => e.1 == p) then
    fs.map (fun e => if e.1 == p then (e.1, c) else e)
  else
    (p, c) :: fs

/-- Read the content of the file at path `p`, if present. -/
def FS.read (fs : FS) (p : String) : Option String :=
  (fs.find? (fun e => e.1 == p)).map (fun e => e.2)

/-- Append text to the file at path `p` (models a `write` call on an open
file handle: the handle was opened earlier, so the path is present). -/
def FS.append (fs : FS) (p s : String) : FS :=
  FS.write fs p (((FS.read fs p).getD "") ++ s)

/-- The paths present in the filesystem, in storage order. -/
def FS.keys (fs : FS) : List String := fs.map (fun e => e.1)

/-- Join two path components with the path separator (os.path.join). -/
def pathJoin (a b : String) : String := a ++ "/" ++ b

/-- The final path component (os.path.basename). -/
def basename (s : String) : String :=
  String.mk ((s.data.reverse.takeWhile (fun c => c != '/')).reverse)

/-- The stem of a filename: os.path.splitext(s)[0].  Splits at the last dot,
except when there is no dot or the characters before the last dot are all
dots (the Python hidden-file rule). -/
def splitextStem (s : String) : String :=
  let cs := s.data
  let extLen := (cs.reverse.takeWhile (fun c => c != '.')).length
  if extLen = cs.length then s
  else
    let nameLen := cs.length - extLen - 1
    if (cs.take nameLen).all (fun c => c == '.') then s
    else String.mk (cs.take nameLen)

/-- Decimal digit character for a value below ten. -/
def decChar : Nat → Char
  | 0 => '0' | 1 => '1' | 2 => '2' | 3 => '3' | 4 => '4'
  | 5 => '5' | 6 => '6' | 7 => '7' | 8 => '8' | _ => '9'

/-- Digit list of the decimal representation of `n`; the first argument is
fuel, sufficient whenever it is at least `n`. -/
def decDigitsAux : Nat → Nat → List Char
  | 0, n => [decChar (n % 10)]
  | fuel + 1, n =>
    if n < 10 then [decChar n]
    else decDigitsAux fuel (n / 10) ++ [decChar (n % 10)]

/-- Decimal representation of a natural number, as produced by the Python
str conversion inside an f-string. -/
def natDecimal (n : Nat) : String := String.mk (decDigitsAux n n)

/-- Name of the PNG written for page index `k` (1-based) of a document with
the given stem: f"{pdf_name}_page_{page_number + 1}.png". -/
def pagePngName (stem : String) (k : Nat) : String :=
  stem ++ "_page_" ++ natDecimal k ++ ".png"

/-- Name of the per-document results file: f"{pdf_name}_results.txt". -/
def resultsName (stem : String) : String := stem ++ "_results.txt"

/-- Bool test that `s` ends with `suf` (str.endswith). -/
def strEndsWith (s suf : String) : Bool := suf.data.isSuffixOf s.data

/-- Bool test that `s` starts with `pre` (used by the directory listing). -/
def strStartsWith (s pre : String) : Bool := pre.data.isPrefixOf s.data

/-- Name of a filesystem entry relative to directory `dir`, when the path
`k` denotes a file directly inside `dir`. -/
def dirEntryName (dir k : String) : Option String :=
  let pre := (dir ++ "/").data
  if pre.isPrefixOf k.data then
    let rest := k.data.drop pre.length
    if rest.contains '/' then none else some (String.mk rest)
  else none

/-- Directory listing (os.listdir): the names of the files directly inside
`dir`, in storage order.  The real listing order is unspecified by the OS;
the caller sorts it before use. -/
def FS.listdir (fs : FS) (dir : String) : List String :=
  (FS.keys fs).filterMap (dirEntryName dir)

/-- Lexicographic comparison of character lists by code point, the order
Python uses to compare strings. -/
def lexLt : List Char → List Char → Bool
  | [], [] => false
  | [], _ :: _ => true
  | _ :: _, [] => false
  | a :: as, b :: bs => if a < b then true else if b < a then false else lexLt as bs

/-- String comparison by code point (Python string less-than). -/
def strLt (a b : String) : Bool := lexLt a.data b.data

/-- Insert a string into an already sorted list, after any equal elements
(stable insertion). -/
def insertSorted (a : String) : List String → List String
  | [] => [a]
  | b :: l => if strLt a b then a :: b :: l else b :: insertSorted a l

/-- Stable sort of a list of strings in Python string order (sorted). -/
def pySorted (l : List String) : List String := l.foldr insertSorted []

/-- Create a directory if missing (os.makedirs with exist_ok=True). -/
def makedirs (dirs : List String) (d : String) : List String :=
  if dirs.contains d then dirs else d :: dirs

/-- Environment of external effects:
`openDoc pdf` opens a PDF and yields its page count (fitz.open + len);
`getPixmap pdf i dpi` renders 0-based page `i` at the given dpi to image
content; `savePix content path` writes the pixmap to disk (pix.save), the
actual filesystem write being performed by the caller on success;
`run model input` invokes the external runner `ollama run model` feeding
`input` on standard input, yielding exit code, stdout and stderr, or
`error` when the executable is absent (FileNotFoundError). -/
structure Env where
  openDoc : String → Except Unit Nat
  getPixmap : String → Nat → Nat → Except Unit String
  savePix : String → String → Except Unit Unit
  run : String → String → Except Unit (Int × String × String)

/-- Page loop of convert_pdf_pages_to_png over the listed page indices:
render each page at dpi 300, save it as `<stem>_page_<i+1>.png` in the
output folder; any exception stops the loop and signals failure, leaving
the pages already written in place. -/
def convertPages (env : Env) (pdf_path pdf_name output_folder : String) :
    List Nat → FS → FS × Bool
  | [], fs => (fs, true)
  | i :: rest, fs =>
    match env.getPixmap pdf_path i 300 with
    | .error _ => (fs, false)
    | .ok pix =>
      let out := pathJoin output_folder (pagePngName pdf_name (i + 1))
      match env.savePix pix out with
      | .error _ => (fs, false)
      | .ok _ => convertPages env pdf_path pdf_name output_folder rest (FS.write fs out pix)

/-- convert_pdf_pages_to_png: open the document, render every page (0-based
index, 1-based name) at dpi 300 into the output folder, return True on
success; any exception is caught and converted into a False return with no
cleanup of pages already written. -/
def convert_pdf_pages_to_png (env : Env) (pdf_path output_folder : String) (fs : FS) :
    FS × Bool :=
  match env.openDoc pdf_path with
  | .error _ => (fs, false)
  | .ok n =>
    let pdf_name := splitextStem (basename pdf_path)
    convertPages env pdf_path pdf_name output_folder (List.range n) fs

/-- Error line written when the runner exits non-zero for a page. -/
def errLine (name err : String) : String :=
  "Error processing " ++ name ++ ": " ++ err ++ "\n"

/-- Error line written when the runner executable is absent. -/
def errNotFoundLine (name : String) : String :=
  "Error processing " ++ name ++ ": Ollama CLI not found\n"

/-- Body of the per-page loop of pdf_to_text: for a directory entry ending
in ".png", build the request as the prompt with the textual file path
appended, invoke the runner feeding the request on standard input, and
append to the results file either the stdout plus a newline (exit 0), an
error line with the captured stderr (non-zero exit), or an inline error
line (executable absent).  Other directory entries are skipped. -/
def processPng (env : Env) (model prompt dir res : String) (fs : FS) (name : String) : FS :=
  if strEndsWith name ".png" then
    let page_path := pathJoin dir name
    match env.run model (prompt ++ " File: " ++ page_path) with
    | .error _ => FS.append fs res (errNotFoundLine name)
    | .ok (rc, out, err) =>
      if rc != 0 then FS.append fs res (errLine name err)
      else FS.append fs res (out ++ "\n")
  else fs

/-- Driver state: the filesystem and the set of created directories. -/
structure St where
  files : FS
  dirs : List String

/-- Body of the per-document loop of pdf_to_text: for an entry ending in
".pdf", create the per-document subfolder, rasterize, and on success open
the results file for writing (truncating) and process every PNG in the
subfolder in sorted name order; on rasterization failure skip extraction
for this document.  Other entries are ignored. -/
def processPdf (env : Env) (model prompt output_folder folder_path : String)
    (st : St) (filename : String) : St :=
  if strEndsWith filename ".pdf" then
    let pdf_path := pathJoin folder_path filename
    let pdf_name := splitextStem filename
    let pdf_output_folder := pathJoin output_folder pdf_name
    let dirs1 := makedirs st.dirs pdf_output_folder
    let pdf_output_file := pathJoin pdf_output_folder (resultsName pdf_name)
    let r := convert_pdf_pages_to_png env pdf_path pdf_output_folder st.files
    if r.2 then
      let fs2 := FS.write r.1 pdf_output_file ""
      let pages := pySorted (FS.listdir fs2 pdf_output_folder)
      let fs3 := pages.foldl (processPng env model prompt pdf_output_folder pdf_output_file) fs2
      { files := fs3, dirs := dirs1 }
    else { files := r.1, dirs := dirs1 }
  else st

/-- pdf_to_text: create the converted_pngs folder under the input folder and
process every directory entry of the input folder in turn.  The entry list
is the os.listdir result for the input folder (filesystem order). -/
def pdf_to_text (env : Env) (folder_path model prompt : String)
    (entries : List String) (st : St) : St :=
  let output_folder := pathJoin folder_path "converted_pngs"
  let st0 : St := { files := st.files, dirs := makedirs st.dirs output_folder }
  entries.foldl (processPdf env model prompt output_folder folder_path) st0

/-- Whitespace test used by the Python str.strip and str.split defaults. -/
def isWS (c : Char) : Bool := c.isWhitespace

/-- Python str.strip: remove leading and trailing whitespace. -/
def pyStrip (s : String) : String :=
  String.mk (((s.data.dropWhile isWS).reverse.dropWhile isWS).reverse)

/-- First whitespace-delimited token of a line: line.split()[0] for a line
that contains at least one non-whitespace character. -/
def pyFirstToken (s : String) : String :=
  String.mk ((s.data.dropWhile isWS).takeWhile (fun c => !isWS c))

/-- Split a string into lines at newline characters (str.splitlines; a
trailing newline yields a final empty line that the caller filters out). -/
def splitLinesAux : List Char → List Char → List String
  | [], acc => [String.mk acc.reverse]
  | c :: rest, acc =>
    if c = '\n' then String.mk acc.reverse :: splitLinesAux rest []
    else splitLinesAux rest (c :: acc)

/-- Lines of a string. -/
def splitLines (s : String) : List String := splitLinesAux s.data []

/-- list_llm_models: run `ollama list`; on FileNotFoundError or a non-zero
exit code return the empty list, otherwise return the first
whitespace-delimited token of every non-blank stdout line, in line order.
The argument is the outcome of the single external call the function makes. -/
def list_llm_models (r : Except Unit (Int × String × String)) : List String :=
  match r with
  | .error _ => []
  | .ok (rc, out, _) =>
    if rc != 0 then []
    else ((splitLines out).filter (fun l => pyStrip l != "")).map pyFirstToken

/-- Concatenation of a list of strings in order. -/
def strConcat (l : List String) : String := l.foldr (fun a b => a ++ b) ""

/-- Result block appended to the results file for one page, as a function of
the runner oracle and the page name: the stdout plus newline on success, an
error line otherwise. -/
def blockOf (run : String → String → Except Unit (Int × String × String))
    (model prompt dir name : String) : String :=
  match run model (prompt ++ " File: " ++ pathJoin dir name) with
  | .error _ => errNotFoundLine name
  | .ok (rc, out, err) => if rc != 0 then errLine name err else out ++ "\n"


/-- Suffix of a page PNG filename after the document stem:
"_page_<k>.png". -/
def pageSuffix (k : Nat) : String := "_page_" ++ (natDecimal k ++ ".png")

/-- Filename suffixes present in a per-document subfolder at extraction
time for an n-page document, in storage order: the results file created by
the truncating open, then the page files most recently written first. -/
def suffixListing (n : Nat) : List String :=
  "_results.txt" :: (List.range n).reverse.map (fun i => pageSuffix (i + 1))

/-- Order in which the extraction loop visits the page files of an n-page
document, as filename suffixes: the sorted subfolder listing restricted to
names ending in ".png". -/
def suffixOrder (n : Nat) : List String :=
  (pySorted (suffixListing n)).filter (fun x => strEndsWith x ".png")

/-! ### Concrete environments used to exercise the definitions -/

/-- Environment with a fixed page count, page images given by `g`, always
succeeding saves, and runner behavior `R`. -/
def echoEnv (pages : Nat) (g : Nat → String)
    (R : String → String → Except Unit (Int × String × String)) : Env :=
  { openDoc := fun _ => .ok pages
    getPixmap := fun _ i _ => .ok (g i)
    savePix := fun _ _ => .ok ()
    run := R }

/-- Ten-page environment whose runner echoes its standard input. -/
def env10C : Env := echoEnv 10 (fun _ => "") (fun _ inp => .ok (0, inp, ""))

/-- Nine-page environment whose runner echoes its input, used to exercise
the per-document block order at the largest page count that still sorts in
ascending page order. -/
def envC1W : Env := echoEnv 9 (fun _ => "") (fun _ inp => .ok (0, inp, ""))

/-- One-page environment with runner behavior `R`. -/
def baseEnv (R : String → String → Except Unit (Int × String × String)) : Env :=
  { openDoc := fun _ => .ok 1
    getPixmap := fun _ _ _ => .ok "img"
    savePix := fun _ _ => .ok ()
    run := R }

/-- Two-page environment whose page images are the decimal page indices. -/
def envC2 : Env :=
  { openDoc := fun _ => .ok 2
    getPixmap := fun _ i _ => .ok (natDecimal i)
    savePix := fun _ _ => .ok ()
    run := fun _ _ => .ok (0, "", "") }

/-- Environment whose document open always raises. -/
def envOpenFail : Env :=
  { openDoc := fun _ => .error ()
    getPixmap := fun _ _ _ => .ok "img"
    savePix := fun _ _ => .ok ()
    run := fun _ _ => .ok (0, "", "") }

/-- Three-page environment whose rendering raises on page index 1. -/
def envRenderFail : Env :=
  { openDoc := fun _ => .ok 3
    getPixmap := fun _ i _ => if i = 1 then .error () else .ok "img"
    savePix := fun _ _ => .ok ()
    run := fun _ _ => .ok (0, "", "") }

/-- One-page environment whose runner echoes its standard input, used to
exercise a re-run over an existing results file. -/
def envC6 : Env := echoEnv 1 (fun _ => "x") (fun _ inp => .ok (0, inp, ""))

/-- State left by a previous run: a results file with old content and a
stale PNG the new run does not overwrite. -/
def stC6 : St :=
  { files := [("d/converted_pngs/a/a_results.txt", "old"),
              ("d/converted_pngs/a/stale.png", "s")]
    dirs := [] }

/-! ### Filesystem lemmas -/

theorem find?_map_keyPres (f : String × String → String × String)
    (hf : ∀ e, (f e).1 = e.1) (q : String) :
    ∀ fs : FS,
      List.find? (fun e => e.1 == q) (fs.map f)
      = Option.map f (List.find? (fun e => e.1 == q) fs)
  | [] => rfl
  | e :: t => by
    by_cases he : e.1 = q
    · simp [List.find?_cons, hf e, he]
    · simp [List.find?_cons, hf e, he, find?_map_keyPres f hf q t]

theorem any_keys (fs : FS) (p : String) :
    fs.any (fun e => e.1 == p) = (FS.keys fs).any (fun k => k == p) := by
  induction fs with
  | nil => rfl
  | cons e t ih =>
    simp only [FS.keys, List.map_cons, List.any_cons] at ih ⊢
    rw [ih]

theorem keys_write (fs : FS) (p c : String) :
    FS.keys (FS.write fs p c)
    = if (FS.keys fs).any (fun k => k == p) then FS.keys fs else p :: FS.keys fs := by
  rw [FS.write, ← any_keys]
  by_cases h : fs.any (fun e => e.1 == p)
  · rw [if_pos h, if_pos h, FS.keys, FS.keys, List.map_map]
    apply List.map_congr_left
    intro e _
    by_cases h2 : e.1 = p <;> simp [h2]
  · rw [if_neg h, if_neg h]
    rfl

theorem read_write_self (fs : FS) (p c : String) :
    FS.read (FS.write fs p c) p = some c := by
  rw [FS.write]
  by_cases h : fs.any (fun e => e.1 == p)
  · rw [if_pos h, FS.read,
      find?_map_keyPres _ (fun e => by by_cases h2 : e.1 = p <;> simp [h2]) p fs]
    rcases hf : fs.find? (fun e => e.1 == p) with _ | a
    · exfalso
      rcases List.any_eq_true.mp h with ⟨e, hmem, hpe⟩
      have hs : (fs.find? (fun e => e.1 == p)).isSome :=
        List.find?_isSome.mpr ⟨e, hmem, hpe⟩
      rw [hf] at hs
      simp at hs
    · have hp := List.find?_some hf
      simp only [beq_iff_eq] at hp
      rw [hf]
      simp [hp]
  · rw [if_neg h, FS.read]
    simp [List.find?_cons]

theorem read_write_ne (fs : FS) (p c q : String) (h : q ≠ p) :
    FS.read (FS.write fs p c) q = FS.read fs q := by
  rw [FS.write]
  by_cases ha : fs.any (fun e => e.1 == p)
  · rw [if_pos ha, FS.read,
      find?_map_keyPres _ (fun e => by by_cases h2 : e.1 = p <;> simp [h2]) q fs]
    rcases hf : fs.find? (fun e => e.1 == q) with _ | a
    · simp [FS.read, hf]
    · have hq := List.find?_some hf
      simp only [beq_iff_eq] at hq
      have : a.1 ≠ p := by rw [hq]; exact h
      simp [FS.read, hf, this]
  · rw [if_neg ha, FS.read, List.find?_cons]
    have : ((p, c).1 == q) = false := by simp; exact fun he => h he.symm
    rw [this]
    rfl

theorem read_append_self (fs : FS) (p s : String) :
    FS.read (FS.append fs p s) p = some (((FS.read fs p).getD "") ++ s) :=
  read_write_self fs p _

theorem read_append_ne (fs : FS) (p s q : String) (h : q ≠ p) :
    FS.read (FS.append fs p s) q = FS.read fs q :=
  read_write_ne fs p _ q h

theorem read_foldl_write_of_ne (l : List Nat) (f g : Nat → String)
    (fs : FS) (p : String) (h : ∀ i ∈ l, p ≠ f i) :
    FS.read (l.foldl (fun acc i => FS.write acc (f i) (g i)) fs) p = FS.read fs p := by
  induction l generalizing fs with
  | nil => rfl
  | cons i t ih =>
    rw [List.foldl_cons, ih _ (fun j hj => h j (List.mem_cons_of_mem _ hj))]
    exact read_write_ne _ _ _ _ (h i (List.mem_cons_self _ _))

theorem read_foldl_write_range (n : Nat) (f g : Nat → String)
    (hf : ∀ a b, f a = f b → a = b) (fs : FS) (i : Nat) (hi : i < n) :
    FS.read ((List.range n).foldl (fun acc j => FS.write acc (f j) (g j)) fs) (f i)
    = some (g i) := by
  induction n generalizing i with
  | zero => omega
  | succ m ih =>
    rw [List.range_succ, List.foldl_append, List.foldl_cons, List.foldl_nil]
    by_cases him : i = m
    · subst him
      exact read_write_self _ _ _
    · rw [read_write_ne _ _ _ _ (fun hfe => him (hf _ _ hfe))]
      exact ih i (by omega)

theorem keys_foldl_write (l : List Nat) (f g : Nat → String) (fs : FS) :
    FS.keys (l.foldl (fun acc i => FS.write acc (f i) (g i)) fs)
    = l.foldl (fun ks i => if ks.any (fun k => k == f i) then ks else f i :: ks)
        (FS.keys fs) := by
  induction l generalizing fs with
  | nil => rfl
  | cons i t ih =>
    rw [List.foldl_cons, List.foldl_cons, ih, keys_write]


/-! ### Decimal representation lemmas -/

theorem decChar_inj (a b : Nat) (ha : a < 10) (hb : b < 10)
    (h : decChar a = decChar b) : a = b := by
  have key : ∀ x y : Fin 10, decChar x.val = decChar y.val → x = y := by decide
  exact congrArg Fin.val (key ⟨a, ha⟩ ⟨b, hb⟩ h)

theorem decDigitsAux_eq (f1 : Nat) : ∀ n f2 : Nat, n ≤ f1 → n ≤ f2 →
    decDigitsAux f1 n = decDigitsAux f2 n := by
  induction f1 with
  | zero =>
    intro n f2 h1 _
    have hn : n = 0 := by omega
    subst hn
    cases f2 with
    | zero => rfl
    | succ k => simp [decDigitsAux]
  | succ m ih =>
    intro n f2 h1 h2
    cases f2 with
    | zero =>
      have hn : n = 0 := by omega
      subst hn
      simp [decDigitsAux]
    | succ k =>
      by_cases hn : n < 10
      · simp [decDigitsAux, hn]
      · have hd : n / 10 < n := Nat.div_lt_self (by omega) (by omega)
        simp only [decDigitsAux, if_neg hn]
        rw [ih (n / 10) k (by omega) (by omega)]

theorem decDigits_lt10 (n : Nat) (h : n < 10) : decDigitsAux n n = [decChar n] := by
  cases n with
  | zero => simp [decDigitsAux]
  | succ m => simp [decDigitsAux, h]

theorem decDigits_ge10 (n : Nat) (h : 10 ≤ n) :
    decDigitsAux n n = decDigitsAux (n / 10) (n / 10) ++ [decChar (n % 10)] := by
  cases n with
  | zero => omega
  | succ m =>
    have hn : ¬ (m + 1 < 10) := by omega
    simp only [decDigitsAux, if_neg hn]
    congr 1
    have hlt : (m + 1) / 10 < m + 1 := Nat.div_lt_self (by omega) (by omega)
    exact decDigitsAux_eq m ((m + 1) / 10) ((m + 1) / 10) (by omega) (le_refl _)

theorem decDigitsAux_ne_nil (f n : Nat) : decDigitsAux f n ≠ [] := by
  cases f with
  | zero => simp [decDigitsAux]
  | succ m => by_cases h : n < 10 <;> simp [decDigitsAux, h]

theorem decDigits_inj (m : Nat) : ∀ n, decDigitsAux m m = decDigitsAux n n → m = n := by
  induction m using Nat.strong_induction_on with
  | _ m ih =>
    intro n h
    by_cases hm : m < 10 <;> by_cases hn : n < 10
    · rw [decDigits_lt10 m hm, decDigits_lt10 n hn] at h
      simp only [List.cons.injEq] at h
      exact decChar_inj m n hm hn h.1
    · rw [decDigits_lt10 m hm, decDigits_ge10 n (by omega)] at h
      exfalso
      have hlen := congrArg List.length h
      simp only [List.length_append, List.length_singleton] at hlen
      have h0 : (decDigitsAux (n / 10) (n / 10)).length = 0 := by omega
      exact decDigitsAux_ne_nil _ _ (List.length_eq_zero.mp h0)
    · rw [decDigits_ge10 m (by omega), decDigits_lt10 n hn] at h
      exfalso
      have hlen := congrArg List.length h
      simp only [List.length_append, List.length_singleton] at hlen
      have h0 : (decDigitsAux (m / 10) (m / 10)).length = 0 := by omega
      exact decDigitsAux_ne_nil _ _ (List.length_eq_zero.mp h0)
    · rw [decDigits_ge10 m (by omega), decDigits_ge10 n (by omega)] at h
      have h2 := congrArg List.reverse h
      simp only [List.reverse_append, List.reverse_cons, List.reverse_nil,
        List.nil_append, List.singleton_append] at h2
      have hhead : decChar (m % 10) = decChar (n % 10) := by
        injection h2
      have htail : (decDigitsAux (m / 10) (m / 10)).reverse
          = (decDigitsAux (n / 10) (n / 10)).reverse := by
        injection h2
      have hmod : m % 10 = n % 10 :=
        decChar_inj _ _ (Nat.mod_lt _ (by omega)) (Nat.mod_lt _ (by omega)) hhead
      have hdiv : m / 10 = n / 10 :=
        ih (m / 10) (Nat.div_lt_self (by omega) (by omega)) (n / 10)
          (List.reverse_injective htail)
      omega

theorem natDecimal_inj (m n : Nat) (h : natDecimal m = natDecimal n) : m = n :=
  decDigits_inj m n (congrArg String.data h)

/-! ### Path disjointness lemmas -/

theorem pagePngName_inj (stem : String) (a b : Nat)
    (h : pagePngName stem a = pagePngName stem b) : a = b := by
  apply natDecimal_inj
  have hd := congrArg String.data h
  simp only [pagePngName, String.data_append, List.append_assoc] at hd
  have h1 := List.append_cancel_left hd
  have h2 := List.append_cancel_left h1
  have h3 := List.append_cancel_right h2
  exact String.ext h3

theorem pathJoin_right_inj (d a b : String) (h : pathJoin d a = pathJoin d b) : a = b := by
  have hd := congrArg String.data h
  simp only [pathJoin, String.data_append, List.append_assoc] at hd
  have h1 := List.append_cancel_left hd
  have h2 := List.append_cancel_left h1
  exact String.ext h2

theorem png_ne_results (x y r : String) :
    x ++ "_page_" ++ r ++ ".png" ≠ y ++ "_results.txt" := by
  intro h
  have hd := congrArg (fun s : String => s.data.reverse) h
  simp only [String.data_append, List.reverse_append, List.append_assoc] at hd
  have e1 : (".png" : String).data.reverse = ['g', 'n', 'p', '.'] := rfl
  have e2 : ("_results.txt" : String).data.reverse
      = ['t', 'x', 't', '.', 's', 't', 'l', 'u', 's', 'e', 'r', '_'] := rfl
  rw [e1, e2] at hd
  simp only [List.cons_append] at hd
  have hg : ('g' : Char) = 't' := by injection hd
  exact absurd hg (by decide)

theorem pngPath_ne_resultsPath (dir s t : String) (i : Nat) :
    pathJoin dir (pagePngName s i) ≠ pathJoin dir (resultsName t) := fun h =>
  png_ne_results s t (natDecimal i) (pathJoin_right_inj _ _ _ h)


/-! ### Rasterization loop lemmas -/

theorem convertPages_ok (env : Env) (pdf stem dir : String) (render : Nat → String)
    (l : List Nat)
    (h : ∀ i ∈ l, env.getPixmap pdf i 300 = .ok (render i)
        ∧ env.savePix (render i) (pathJoin dir (pagePngName stem (i + 1))) = .ok ()) :
    ∀ fs : FS,
      convertPages env pdf stem dir l fs
      = (l.foldl (fun acc i =>
          FS.write acc (pathJoin dir (pagePngName stem (i + 1))) (render i)) fs, true) := by
  induction l with
  | nil => intro fs; rfl
  | cons i t ih =>
    intro fs
    have hi := h i (List.mem_cons_self _ _)
    simp only [convertPages, hi.1, hi.2, List.foldl_cons]
    exact ih (fun j hj => h j (List.mem_cons_of_mem _ hj)) _

theorem convertPages_stop (env : Env) (pdf stem dir : String) (render : Nat → String)
    (l1 : List Nat) (k : Nat) (l2 : List Nat)
    (h : ∀ i ∈ l1, env.getPixmap pdf i 300 = .ok (render i)
        ∧ env.savePix (render i) (pathJoin dir (pagePngName stem (i + 1))) = .ok ())
    (hk : env.getPixmap pdf k 300 = .error ()
        ∨ ∃ c, env.getPixmap pdf k 300 = .ok c
            ∧ env.savePix c (pathJoin dir (pagePngName stem (k + 1))) = .error ()) :
    ∀ fs : FS,
      convertPages env pdf stem dir (l1 ++ k :: l2) fs
      = (l1.foldl (fun acc i =>
          FS.write acc (pathJoin dir (pagePngName stem (i + 1))) (render i)) fs, false) := by
  induction l1 with
  | nil =>
    intro fs
    rcases hk with hk | ⟨c, hk1, hk2⟩
    · simp only [List.nil_append, convertPages, hk, List.foldl_nil]
    · simp only [List.nil_append, convertPages, hk1, hk2, List.foldl_nil]
  | cons i t ih =>
    intro fs
    have hi := h i (List.mem_cons_self _ _)
    simp only [List.cons_append, convertPages, hi.1, hi.2, List.foldl_cons]
    exact ih (fun j hj => h j (List.mem_cons_of_mem _ hj)) _

theorem convertPages_read_frame (env : Env) (pdf stem dir : String) (l : List Nat)
    (p : String) (h : ∀ i ∈ l, p ≠ pathJoin dir (pagePngName stem (i + 1))) :
    ∀ fs : FS, FS.read (convertPages env pdf stem dir l fs).1 p = FS.read fs p := by
  induction l with
  | nil => intro fs; rfl
  | cons i t ih =>
    intro fs
    cases hg : env.getPixmap pdf i 300 with
    | error e => simp only [convertPages, hg]
    | ok c =>
      cases hs : env.savePix c (pathJoin dir (pagePngName stem (i + 1))) with
      | error e => simp only [convertPages, hg, hs]
      | ok u =>
        simp only [convertPages, hg, hs]
        rw [ih (fun j hj => h j (List.mem_cons_of_mem _ hj)) _,
          read_write_ne _ _ _ _ (h i (List.mem_cons_self _ _))]

theorem convertPages_keys_snd (env : Env) (pdf stem dir : String) (l : List Nat) :
    ∀ fs1 fs2 : FS, FS.keys fs1 = FS.keys fs2 →
      FS.keys (convertPages env pdf stem dir l fs1).1
        = FS.keys (convertPages env pdf stem dir l fs2).1
      ∧ (convertPages env pdf stem dir l fs1).2 = (convertPages env pdf stem dir l fs2).2 := by
  induction l with
  | nil => exact fun fs1 fs2 h => ⟨h, rfl⟩
  | cons i t ih =>
    intro fs1 fs2 h
    cases hg : env.getPixmap pdf i 300 with
    | error e => simp only [convertPages, hg]; exact ⟨h, trivial⟩
    | ok c =>
      cases hs : env.savePix c (pathJoin dir (pagePngName stem (i + 1))) with
      | error e => simp only [convertPages, hg, hs]; exact ⟨h, trivial⟩
      | ok u =>
        simp only [convertPages, hg, hs]
        apply ih
        rw [keys_write, keys_write, h]


/-! ### Extraction loop lemmas -/

theorem processPng_is_png (env : Env) (model prompt dir res : String) (fs : FS)
    (name : String) (h : strEndsWith name ".png" = true) :
    processPng env model prompt dir res fs name
    = FS.append fs res (blockOf env.run model prompt dir name) := by
  cases hr : env.run model (prompt ++ " File: " ++ pathJoin dir name) with
  | error e => simp [processPng, h, blockOf, hr]
  | ok t =>
    rcases t with ⟨rc, out, err⟩
    by_cases hrc : rc = 0
    · simp [processPng, h, blockOf, hr, hrc]
    · simp [processPng, h, blockOf, hr, hrc]

theorem processPng_no_png (env : Env) (model prompt dir res : String) (fs : FS)
    (name : String) (h : strEndsWith name ".png" = false) :
    processPng env model prompt dir res fs name = fs := by
  simp [processPng, h]

theorem processPng_read_other (env : Env) (model prompt dir res : String) (fs : FS)
    (name q : String) (hq : q ≠ res) :
    FS.read (processPng env model prompt dir res fs name) q = FS.read fs q := by
  cases h : strEndsWith name ".png" with
  | true =>
    rw [processPng_is_png env model prompt dir res fs name h]
    exact read_append_ne _ _ _ _ hq
  | false =>
    rw [processPng_no_png env model prompt dir res fs name h]

theorem fold_png_read_other (env : Env) (model prompt dir res : String)
    (names : List String) (q : String) (hq : q ≠ res) :
    ∀ fs : FS,
      FS.read (names.foldl (processPng env model prompt dir res) fs) q = FS.read fs q := by
  induction names with
  | nil => intro fs; rfl
  | cons nm t ih =>
    intro fs
    rw [List.foldl_cons, ih _, processPng_read_other _ _ _ _ _ _ _ _ hq]

theorem fold_png_content (env : Env) (model prompt dir res : String)
    (names : List String) :
    ∀ (fs : FS) (c : String), FS.read fs res = some c →
      FS.read (names.foldl (processPng env model prompt dir res) fs) res
      = some (c ++ strConcat (List.map (blockOf env.run model prompt dir)
          (names.filter (fun nm => strEndsWith nm ".png")))) := by
  induction names with
  | nil =>
    intro fs c h
    simpa [strConcat] using h
  | cons nm t ih =>
    intro fs c h
    rw [List.foldl_cons]
    cases hnm : strEndsWith nm ".png" with
    | true =>
      rw [processPng_is_png env model prompt dir res fs nm hnm]
      have h2 : FS.read (FS.append fs res (blockOf env.run model prompt dir nm)) res
          = some (c ++ blockOf env.run model prompt dir nm) := by
        rw [read_append_self, h]
        rfl
      rw [ih _ _ h2]
      have h3 : ∀ (a : String) (l : List String), strConcat (a :: l) = a ++ strConcat l :=
        fun a l => rfl
      simp [List.filter_cons, hnm, h3, String.append_assoc]
    | false =>
      rw [processPng_no_png env model prompt dir res fs nm hnm, ih _ _ h]
      simp [List.filter_cons, hnm]


/-! ### Driver step lemmas -/

theorem processPdf_not_pdf (env : Env) (model prompt outF fol : String) (st : St)
    (f : String) (h : strEndsWith f ".pdf" = false) :
    processPdf env model prompt outF fol st f = st := by
  simp [processPdf, h]

theorem processPdf_fail (env : Env) (model prompt outF fol : String) (st : St)
    (f : String) (h : strEndsWith f ".pdf" = true)
    (hc : (convert_pdf_pages_to_png env (pathJoin fol f)
        (pathJoin outF (splitextStem f)) st.files).2 = false) :
    processPdf env model prompt outF fol st f
    = { files := (convert_pdf_pages_to_png env (pathJoin fol f)
          (pathJoin outF (splitextStem f)) st.files).1,
        dirs := makedirs st.dirs (pathJoin outF (splitextStem f)) } := by
  simp [processPdf, h, hc]

theorem processPdf_succ (env : Env) (model prompt outF fol : String) (st : St)
    (f : String) (h : strEndsWith f ".pdf" = true)
    (hc : (convert_pdf_pages_to_png env (pathJoin fol f)
        (pathJoin outF (splitextStem f)) st.files).2 = true) :
    processPdf env model prompt outF fol st f
    = { files :=
          (pySorted (FS.listdir
              (FS.write (convert_pdf_pages_to_png env (pathJoin fol f)
                  (pathJoin outF (splitextStem f)) st.files).1
                (pathJoin (pathJoin outF (splitextStem f)) (resultsName (splitextStem f))) "")
              (pathJoin outF (splitextStem f)))).foldl
            (processPng env model prompt (pathJoin outF (splitextStem f))
              (pathJoin (pathJoin outF (splitextStem f)) (resultsName (splitextStem f))))
            (FS.write (convert_pdf_pages_to_png env (pathJoin fol f)
                (pathJoin outF (splitextStem f)) st.files).1
              (pathJoin (pathJoin outF (splitextStem f)) (resultsName (splitextStem f))) ""),
        dirs := makedirs st.dirs (pathJoin outF (splitextStem f)) } := by
  simp [processPdf, h, hc]

theorem range_split (k n : Nat) (h : k < n) :
    List.range n
    = List.range k ++ k :: ((List.range (n - k - 1)).map (fun j => k + (j + 1))) := by
  rw [show n = k + ((n - k - 1) + 1) by omega, List.range_add, List.range_succ_eq_map]
  simp [List.map_map, Function.comp, Nat.succ_eq_add_one]


/-! ### Claim theorems -/

/-- C2: for every PDF with N pages on which opening, rendering and saving
raise no exception, convert_pdf_pages_to_png writes exactly N PNG files
named stem_page_1.png through stem_page_N.png (1-based numbering from the
0-based page index) at dpi 300 into the destination directory, and returns
True: the return flag is true, every page file is present with the content
rendered at dpi 300, and no other path is touched. -/
theorem convert_success_exact_pages (env : Env) (pdf_path output_folder : String)
    (fs : FS) (n : Nat) (render : Nat → String)
    (hopen : env.openDoc pdf_path = .ok n)
    (hrender : ∀ i, i < n → env.getPixmap pdf_path i 300 = .ok (render i))
    (hsave : ∀ i, i < n → env.savePix (render i)
        (pathJoin output_folder
          (pagePngName (splitextStem (basename pdf_path)) (i + 1))) = .ok ()) :
    (convert_pdf_pages_to_png env pdf_path output_folder fs).2 = true
    ∧ (∀ i, i < n →
        FS.read (convert_pdf_pages_to_png env pdf_path output_folder fs).1
          (pathJoin output_folder (pagePngName (splitextStem (basename pdf_path)) (i + 1)))
        = some (render i))
    ∧ (∀ p, (∀ i, i < n →
          p ≠ pathJoin output_folder (pagePngName (splitextStem (basename pdf_path)) (i + 1))) →
        FS.read (convert_pdf_pages_to_png env pdf_path output_folder fs).1 p
        = FS.read fs p) := by
  have hc : convert_pdf_pages_to_png env pdf_path output_folder fs
      = ((List.range n).foldl (fun acc i => FS.write acc
          (pathJoin output_folder (pagePngName (splitextStem (basename pdf_path)) (i + 1)))
          (render i)) fs, true) := by
    simp only [convert_pdf_pages_to_png, hopen]
    exact convertPages_ok env pdf_path _ output_folder render (List.range n)
      (fun i hi => ⟨hrender i (List.mem_range.mp hi), hsave i (List.mem_range.mp hi)⟩) fs
  refine ⟨by rw [hc], fun i hi => ?_, fun p hp => ?_⟩
  · rw [hc]
    exact read_foldl_write_range n
      (fun j => pathJoin output_folder (pagePngName (splitextStem (basename pdf_path)) (j + 1)))
      render
      (fun a b hab => by
        have h1 := pathJoin_right_inj _ _ _ hab
        have h2 := pagePngName_inj _ _ _ h1
        omega)
      fs i hi
  · rw [hc]
    exact read_foldl_write_of_ne (List.range n)
      (fun j => pathJoin output_folder (pagePngName (splitextStem (basename pdf_path)) (j + 1)))
      render fs p (fun i hi => hp i (List.mem_range.mp hi))

/-- Witness for C2 at a concrete two-page document. -/
theorem convert_success_exact_pages_witness :
    (convert_pdf_pages_to_png envC2 "d/a.pdf" "out" []).2 = true
    ∧ FS.read (convert_pdf_pages_to_png envC2 "d/a.pdf" "out" []).1 "out/a_page_1.png"
        = some "0"
    ∧ FS.read (convert_pdf_pages_to_png envC2 "d/a.pdf" "out" []).1 "out/a_page_2.png"
        = some "1"
    ∧ FS.read (convert_pdf_pages_to_png envC2 "d/a.pdf" "out" []).1 "elsewhere.txt" = none := by
  have h := convert_success_exact_pages envC2 "d/a.pdf" "out" [] 2 (fun i => natDecimal i)
    rfl (fun i _ => rfl) (fun i _ => rfl)
  refine ⟨h.1, h.2.1 0 (by omega), h.2.1 1 (by omega), ?_⟩
  have h2 := h.2.2 "elsewhere.txt" (fun i hi => by interval_cases i <;> decide)
  exact h2.trans rfl

/-- C7: when any step of convert_pdf_pages_to_png raises (opening the
document, rendering a page, or saving an image), the function returns
False, and the pages already written before the failure are still present
in the filesystem (no cleanup). -/
theorem convert_exception_returns_false_no_cleanup (env : Env) (pdf_path dir : String)
    (fs : FS) :
    (env.openDoc pdf_path = .error () →
      convert_pdf_pages_to_png env pdf_path dir fs = (fs, false))
    ∧ (∀ n k (render : Nat → String), k < n → env.openDoc pdf_path = .ok n →
        (∀ i, i < k → env.getPixmap pdf_path i 300 = .ok (render i)
            ∧ env.savePix (render i)
                (pathJoin dir (pagePngName (splitextStem (basename pdf_path)) (i + 1)))
              = .ok ()) →
        (env.getPixmap pdf_path k 300 = .error ()
          ∨ ∃ c, env.getPixmap pdf_path k 300 = .ok c
              ∧ env.savePix c
                  (pathJoin dir (pagePngName (splitextStem (basename pdf_path)) (k + 1)))
                = .error ()) →
        (convert_pdf_pages_to_png env pdf_path dir fs).2 = false
        ∧ ∀ i, i < k →
            FS.read (convert_pdf_pages_to_png env pdf_path dir fs).1
              (pathJoin dir (pagePngName (splitextStem (basename pdf_path)) (i + 1)))
            = some (render i)) := by
  constructor
  · intro he
    simp only [convert_pdf_pages_to_png, he]
  · intro n k render hk hopen hok hfail
    have hc : convert_pdf_pages_to_png env pdf_path dir fs
        = ((List.range k).foldl (fun acc i => FS.write acc
            (pathJoin dir (pagePngName (splitextStem (basename pdf_path)) (i + 1)))
            (render i)) fs, false) := by
      simp only [convert_pdf_pages_to_png, hopen]
      rw [range_split k n hk]
      exact convertPages_stop env pdf_path _ dir render (List.range k) k _
        (fun i hi => hok i (List.mem_range.mp hi)) hfail fs
    refine ⟨by rw [hc], fun i hi => ?_⟩
    rw [hc]
    exact read_foldl_write_range k
      (fun j => pathJoin dir (pagePngName (splitextStem (basename pdf_path)) (j + 1)))
      render
      (fun a b hab => by
        have h1 := pathJoin_right_inj _ _ _ hab
        have h2 := pagePngName_inj _ _ _ h1
        omega)
      fs i hi

/-- Witness for C7: a document whose open raises, and a three-page document
whose rendering raises on the second page after one page was written. -/
theorem convert_exception_returns_false_no_cleanup_witness :
    convert_pdf_pages_to_png envOpenFail "a.pdf" "o" [] = ([], false)
    ∧ (convert_pdf_pages_to_png envRenderFail "a.pdf" "o" []).2 = false
    ∧ FS.read (convert_pdf_pages_to_png envRenderFail "a.pdf" "o" []).1 "o/a_page_1.png"
        = some "img" := by
  refine ⟨(convert_exception_returns_false_no_cleanup envOpenFail "a.pdf" "o" []).1 rfl, ?_, ?_⟩
  all_goals
    have h := (convert_exception_returns_false_no_cleanup envRenderFail "a.pdf" "o" []).2
      3 1 (fun _ => "img") (by omega) rfl
      (fun i hi => by interval_cases i; exact ⟨rfl, rfl⟩)
      (Or.inl rfl)
  · exact h.1
  · exact h.2 0 (by omega)


theorem fold_processPdf_non_pdf (env : Env) (model prompt outF fol : String)
    (entries : List String) (h : ∀ g ∈ entries, strEndsWith g ".pdf" = false) :
    ∀ st : St, entries.foldl (processPdf env model prompt outF fol) st = st := by
  induction entries with
  | nil => intro st; rfl
  | cons e t ih =>
    intro st
    rw [List.foldl_cons, processPdf_not_pdf env model prompt outF fol st e
      (h e (List.mem_cons_self _ _))]
    exact ih (fun g hg => h g (List.mem_cons_of_mem _ hg)) st

/-- C8: an entry of the input folder whose name does not end in ".pdf" is
ignored entirely: the per-document step leaves the state unchanged, and a
run over a folder with no PDF entries produces no file and no directory
other than the top-level converted_pngs directory. -/
theorem non_pdf_entries_ignored (env : Env) (model prompt outF fol : String) (st : St)
    (f : String) (h : strEndsWith f ".pdf" = false) :
    processPdf env model prompt outF fol st f = st
    ∧ ∀ entries : List String, (∀ g ∈ entries, strEndsWith g ".pdf" = false) →
        pdf_to_text env fol model prompt entries st
        = { files := st.files, dirs := makedirs st.dirs (pathJoin fol "converted_pngs") } := by
  refine ⟨processPdf_not_pdf env model prompt outF fol st f h, fun entries hall => ?_⟩
  simp only [pdf_to_text]
  exact fold_processPdf_non_pdf env model prompt _ fol entries hall _

/-- Witness for C8 at concrete non-PDF entries. -/
theorem non_pdf_entries_ignored_witness :
    processPdf envC2 "m" "P" "d/converted_pngs" "d" ⟨[], []⟩ "notes.txt" = ⟨[], []⟩
    ∧ pdf_to_text envC2 "d" "m" "P" ["notes.txt", "img.png"] ⟨[], []⟩
        = ⟨[], ["d/converted_pngs"]⟩ := by
  have h := non_pdf_entries_ignored envC2 "m" "P" "d/converted_pngs" "d" ⟨[], []⟩
    "notes.txt" rfl
  exact ⟨h.1, h.2 ["notes.txt", "img.png"] (by decide)⟩

/-- C4: the request handed to the external runner for a page is exactly the
prompt string with the textual file path appended; the runner never receives
anything else (in particular not the image bytes, which the page step never
reads): two environments whose runners agree on that single request string
produce identical page-step results on any filesystem. -/
theorem request_is_prompt_plus_path (env1 env2 : Env) (model prompt dir res : String)
    (fs : FS) (name : String)
    (h : env1.run model (prompt ++ " File: " ++ pathJoin dir name)
        = env2.run model (prompt ++ " File: " ++ pathJoin dir name)) :
    processPng env1 model prompt dir res fs name
    = processPng env2 model prompt dir res fs name := by
  cases hp : strEndsWith name ".png" with
  | true =>
    rw [processPng_is_png _ _ _ _ _ _ _ hp, processPng_is_png _ _ _ _ _ _ _ hp,
      blockOf, blockOf, h]
  | false =>
    rw [processPng_no_png _ _ _ _ _ _ _ hp, processPng_no_png _ _ _ _ _ _ _ hp]

/-- Witness for C4: two runners that agree only on the request for the page
at hand give the same step result. -/
theorem request_is_prompt_plus_path_witness :
    processPng (baseEnv (fun _ inp => .ok (0, inp, ""))) "m" "P" "d" "r" [("r", "")] "p1.png"
    = processPng (baseEnv (fun _ inp =>
        if inp = "P File: d/p1.png" then .ok (0, inp, "") else .error ()))
        "m" "P" "d" "r" [("r", "")] "p1.png" :=
  request_is_prompt_plus_path _ _ "m" "P" "d" "r" [("r", "")] "p1.png" rfl

/-- C5: per-page outcome of the runner invocation: on a missing executable
an inline error line is appended, on a non-zero exit an error line with the
captured stderr is appended, on success the stdout plus a newline is
appended; in every case the step yields a state the loop continues from. -/
theorem per_page_runner_outcomes (env : Env) (model prompt dir res : String) (fs : FS)
    (name : String) (h : strEndsWith name ".png" = true) :
    (env.run model (prompt ++ " File: " ++ pathJoin dir name) = .error () →
      processPng env model prompt dir res fs name
      = FS.append fs res (errNotFoundLine name))
    ∧ (∀ rc out err,
        env.run model (prompt ++ " File: " ++ pathJoin dir name) = .ok (rc, out, err) →
        rc ≠ 0 →
        processPng env model prompt dir res fs name = FS.append fs res (errLine name err))
    ∧ (∀ out err,
        env.run model (prompt ++ " File: " ++ pathJoin dir name) = .ok (0, out, err) →
        processPng env model prompt dir res fs name = FS.append fs res (out ++ "\n")) := by
  refine ⟨fun he => ?_, fun rc out err hok hrc => ?_, fun out err hok => ?_⟩
  · rw [processPng_is_png _ _ _ _ _ _ _ h, blockOf, he]
  · rw [processPng_is_png _ _ _ _ _ _ _ h, blockOf, hok]
    simp [hrc]
  · rw [processPng_is_png _ _ _ _ _ _ _ h, blockOf, hok]
    simp

/-- Witness for C5: the three runner outcomes at a concrete page. -/
theorem per_page_runner_outcomes_witness :
    processPng (baseEnv (fun _ _ => .error ())) "m" "P" "d" "r" [("r", "")] "p.png"
      = FS.append [("r", "")] "r" (errNotFoundLine "p.png")
    ∧ processPng (baseEnv (fun _ _ => .ok (1, "o", "boom"))) "m" "P" "d" "r" [("r", "")] "p.png"
      = FS.append [("r", "")] "r" (errLine "p.png" "boom")
    ∧ processPng (baseEnv (fun _ _ => .ok (0, "hello", ""))) "m" "P" "d" "r" [("r", "")] "p.png"
      = FS.append [("r", "")] "r" ("hello" ++ "\n") := by
  refine ⟨?_, ?_, ?_⟩
  · exact (per_page_runner_outcomes _ "m" "P" "d" "r" [("r", "")] "p.png" rfl).1 rfl
  · exact (per_page_runner_outcomes _ "m" "P" "d" "r" [("r", "")] "p.png" rfl).2.1
      1 "o" "boom" rfl (by decide)
  · exact (per_page_runner_outcomes _ "m" "P" "d" "r" [("r", "")] "p.png" rfl).2.2
      "hello" "" rfl

theorem pyStrip_eq_empty_iff (l : String) :
    pyStrip l = "" ↔ ∀ c ∈ l.data, isWS c = true := by
  constructor
  · intro h c hc
    have hx : ((l.data.dropWhile isWS).reverse.dropWhile isWS).reverse = [] :=
      congrArg String.data h
    rw [List.reverse_eq_nil_iff] at hx
    have hall := List.dropWhile_eq_nil_iff.mp hx
    by_cases hcd : c ∈ l.data.dropWhile isWS
    · exact hall c (List.mem_reverse.mpr hcd)
    · have hsplit : l.data = l.data.takeWhile isWS ++ l.data.dropWhile isWS :=
        (List.takeWhile_append_dropWhile isWS l.data).symm
      rw [hsplit] at hc
      rcases List.mem_append.mp hc with h1 | h2
      · exact List.mem_takeWhile_imp h1
      · exact absurd h2 hcd
  · intro h
    have h1 : l.data.dropWhile isWS = [] := List.dropWhile_eq_nil_iff.mpr h
    rw [pyStrip, h1]
    rfl

theorem pyStrip_bool (l : String) :
    (pyStrip l != "") = l.data.any (fun c => !isWS c) := by
  apply Bool.eq_iff_iff.mpr
  rw [bne_iff_ne, ne_eq, List.any_eq_true]
  constructor
  · intro h
    have h2 := mt (pyStrip_eq_empty_iff l).mpr h
    simp only [not_forall] at h2
    rcases h2 with ⟨c, hc, hw⟩
    refine ⟨c, hc, ?_⟩
    rw [Bool.not_eq_true] at hw
    simp [hw]
  · rintro ⟨c, hc, hw⟩ hempty
    have := (pyStrip_eq_empty_iff l).mp hempty c hc
    rw [this] at hw
    simp at hw

/-- C9: list_llm_models returns the empty list when the runner executable is
absent or the list command exits non-zero; otherwise it returns the first
whitespace-delimited token of every line containing a non-whitespace
character, in line order. -/
theorem list_models_behavior (r : Except Unit (Int × String × String)) :
    (r = .error () → list_llm_models r = [])
    ∧ (∀ rc out err, r = .ok (rc, out, err) → rc ≠ 0 → list_llm_models r = [])
    ∧ (∀ out err, r = .ok (0, out, err) →
        list_llm_models r
        = ((splitLines out).filter
            (fun l => l.data.any (fun c => !isWS c))).map pyFirstToken) := by
  refine ⟨fun he => by rw [he]; rfl, fun rc out err hok hrc => ?_, fun out err hok => ?_⟩
  · rw [hok]
    simp [list_llm_models, hrc]
  · rw [hok]
    simp only [list_llm_models]
    rw [List.filter_congr (fun x _ => pyStrip_bool x)]
    simp

/-- Witness for C9: the three outcomes of the list command. -/
theorem list_models_behavior_witness :
    list_llm_models (.error ()) = []
    ∧ list_llm_models (.ok (2, "a", "")) = []
    ∧ list_llm_models (.ok (0, "m1 7b\n\nm2 3b\n", "")) = ["m1", "m2"] := by
  refine ⟨(list_models_behavior _).1 rfl, (list_models_behavior _).2.1 2 "a" "" rfl (by decide), ?_⟩
  exact ((list_models_behavior _).2.2 "m1 7b\n\nm2 3b\n" "" rfl).trans (by decide)


theorem convert_read_results_frame (env : Env) (pdf dir : String) (fs : FS) (t : String) :
    FS.read (convert_pdf_pages_to_png env pdf dir fs).1 (pathJoin dir (resultsName t))
    = FS.read fs (pathJoin dir (resultsName t)) := by
  cases ho : env.openDoc pdf with
  | error e => simp only [convert_pdf_pages_to_png, ho]
  | ok n =>
    simp only [convert_pdf_pages_to_png, ho]
    exact convertPages_read_frame env pdf _ dir (List.range n) _
      (fun i _ => (pngPath_ne_resultsPath dir _ t (i + 1)).symm) fs

theorem convert_read_frame_outside (env : Env) (pdf dir : String) (fs : FS) (p : String)
    (hp : ∀ x, p ≠ pathJoin dir x) :
    FS.read (convert_pdf_pages_to_png env pdf dir fs).1 p = FS.read fs p := by
  cases ho : env.openDoc pdf with
  | error e => simp only [convert_pdf_pages_to_png, ho]
  | ok n =>
    simp only [convert_pdf_pages_to_png, ho]
    exact convertPages_read_frame env pdf _ dir (List.range n) p (fun i _ => hp _) fs

theorem not_in_dir_of_short (p dir : String) (h : p.data.length < dir.data.length + 1) :
    ∀ x, p ≠ pathJoin dir x := by
  intro x heq
  have hd := congrArg (fun s : String => s.data.length) heq
  simp only [pathJoin, String.data_append, List.length_append, List.length_cons,
    List.length_nil] at hd
  omega

/-- C3: for each PDF entry, page extraction happens if and only if
rasterization reported success: on failure the state is exactly the
rasterization output and the results file is never written (its previous
content, or absence, is preserved); on success the results file exists; and
in either case no path outside the per-document subfolder is touched, so
sibling documents are processed unaffected. -/
theorem extraction_iff_raster_success (env : Env) (model prompt outF fol : String)
    (st : St) (f : String) (h : strEndsWith f ".pdf" = true) :
    ((convert_pdf_pages_to_png env (pathJoin fol f)
        (pathJoin outF (splitextStem f)) st.files).2 = false →
      (processPdf env model prompt outF fol st f).files
        = (convert_pdf_pages_to_png env (pathJoin fol f)
            (pathJoin outF (splitextStem f)) st.files).1
      ∧ FS.read (processPdf env model prompt outF fol st f).files
          (pathJoin (pathJoin outF (splitextStem f)) (resultsName (splitextStem f)))
        = FS.read st.files
            (pathJoin (pathJoin outF (splitextStem f)) (resultsName (splitextStem f))))
    ∧ ((convert_pdf_pages_to_png env (pathJoin fol f)
          (pathJoin outF (splitextStem f)) st.files).2 = true →
        ∃ s, FS.read (processPdf env model prompt outF fol st f).files
            (pathJoin (pathJoin outF (splitextStem f)) (resultsName (splitextStem f)))
          = some s)
    ∧ (∀ p, (∀ x, p ≠ pathJoin (pathJoin outF (splitextStem f)) x) →
        FS.read (processPdf env model prompt outF fol st f).files p
        = FS.read st.files p) := by
  refine ⟨fun hc => ?_, fun hc => ?_, fun p hp => ?_⟩
  · rw [processPdf_fail env model prompt outF fol st f h hc]
    exact ⟨rfl, convert_read_results_frame env _ _ _ _⟩
  · rw [processPdf_succ env model prompt outF fol st f h hc]
    exact ⟨_, fold_png_content env model prompt _ _ _ _ "" (read_write_self _ _ _)⟩
  · cases hc : (convert_pdf_pages_to_png env (pathJoin fol f)
        (pathJoin outF (splitextStem f)) st.files).2 with
    | false =>
      rw [processPdf_fail env model prompt outF fol st f h hc]
      exact convert_read_frame_outside env _ _ _ p hp
    | true =>
      rw [processPdf_succ env model prompt outF fol st f h hc]
      rw [fold_png_read_other env model prompt _ _ _ p (hp _) _]
      rw [read_write_ne _ _ _ _ (hp _)]
      exact convert_read_frame_outside env _ _ _ p hp

/-- Witness for C3: a document whose rasterization fails leaves its results
file absent, and a document whose rasterization succeeds has one. -/
theorem extraction_iff_raster_success_witness :
    (processPdf envOpenFail "m" "P" "d/converted_pngs" "d" ⟨[], []⟩ "a.pdf").files
      = (convert_pdf_pages_to_png envOpenFail "d/a.pdf" "d/converted_pngs/a" []).1
    ∧ FS.read (processPdf envOpenFail "m" "P" "d/converted_pngs" "d" ⟨[], []⟩ "a.pdf").files
        "d/converted_pngs/a/a_results.txt" = none
    ∧ (∃ s, FS.read (processPdf envC2 "m" "P" "d/converted_pngs" "d" ⟨[], []⟩ "a.pdf").files
        "d/converted_pngs/a/a_results.txt" = some s)
    ∧ FS.read (processPdf envC2 "m" "P" "d/converted_pngs" "d" ⟨[], []⟩ "a.pdf").files "other"
        = none := by
  have h1 := extraction_iff_raster_success envOpenFail "m" "P" "d/converted_pngs" "d"
    ⟨[], []⟩ "a.pdf" rfl
  have h2 := extraction_iff_raster_success envC2 "m" "P" "d/converted_pngs" "d"
    ⟨[], []⟩ "a.pdf" rfl
  refine ⟨(h1.1 rfl).1, ((h1.1 rfl).2).trans rfl, h2.2.1 rfl, ?_⟩
  exact (h2.2.2 "other" (not_in_dir_of_short _ _ (by decide))).trans rfl

theorem mem_makedirs_self (dirs : List String) (d : String) : d ∈ makedirs dirs d := by
  rw [makedirs]
  by_cases h : dirs.contains d
  · rw [if_pos h]
    exact List.mem_of_elem_eq_true h
  · rw [if_neg h]
    exact List.mem_cons_self _ _

theorem mem_makedirs_of_mem (dirs : List String) (x d : String) (h : d ∈ dirs) :
    d ∈ makedirs dirs x := by
  rw [makedirs]
  by_cases h2 : dirs.contains x
  · rw [if_pos h2]
    exact h
  · rw [if_neg h2]
    exact List.mem_cons_of_mem _ h

theorem processPdf_dirs_mono (env : Env) (model prompt outF fol : String) (st : St)
    (f d : String) (h : d ∈ st.dirs) :
    d ∈ (processPdf env model prompt outF fol st f).dirs := by
  cases hp : strEndsWith f ".pdf" with
  | false =>
    rw [processPdf_not_pdf env model prompt outF fol st f hp]
    exact h
  | true =>
    cases hc : (convert_pdf_pages_to_png env (pathJoin fol f)
        (pathJoin outF (splitextStem f)) st.files).2 with
    | false =>
      rw [processPdf_fail env model prompt outF fol st f hp hc]
      exact mem_makedirs_of_mem _ _ _ h
    | true =>
      rw [processPdf_succ env model prompt outF fol st f hp hc]
      exact mem_makedirs_of_mem _ _ _ h

theorem processPdf_dirs_subdir (env : Env) (model prompt outF fol : String) (st : St)
    (f : String) (hp : strEndsWith f ".pdf" = true) :
    pathJoin outF (splitextStem f) ∈ (processPdf env model prompt outF fol st f).dirs := by
  cases hc : (convert_pdf_pages_to_png env (pathJoin fol f)
      (pathJoin outF (splitextStem f)) st.files).2 with
  | false =>
    rw [processPdf_fail env model prompt outF fol st f hp hc]
    exact mem_makedirs_self _ _
  | true =>
    rw [processPdf_succ env model prompt outF fol st f hp hc]
    exact mem_makedirs_self _ _

theorem foldl_dirs_mono (env : Env) (model prompt outF fol : String)
    (entries : List String) (d : String) :
    ∀ st : St, d ∈ st.dirs →
      d ∈ (entries.foldl (processPdf env model prompt outF fol) st).dirs := by
  induction entries with
  | nil => exact fun st h => h
  | cons e t ih =>
    intro st h
    rw [List.foldl_cons]
    exact ih _ (processPdf_dirs_mono env model prompt outF fol st e d h)

theorem foldl_dirs_subdir (env : Env) (model prompt outF fol : String)
    (entries : List String) (f : String) (hf : f ∈ entries)
    (hp : strEndsWith f ".pdf" = true) :
    ∀ st : St,
      pathJoin outF (splitextStem f)
      ∈ (entries.foldl (processPdf env model prompt outF fol) st).dirs := by
  induction entries with
  | nil => exact absurd hf (List.not_mem_nil f)
  | cons e t ih =>
    intro st
    rw [List.foldl_cons]
    rcases List.mem_cons.mp hf with he | ht
    · subst he
      exact foldl_dirs_mono env model prompt outF fol t _ _
        (processPdf_dirs_subdir env model prompt outF fol st f hp)
    · exact ih ht _

/-- C10: pdf_to_text creates the top-level converted_pngs directory and the
per-document subfolder before rasterizing, so after a run both exist for
every entry ending in .pdf, even when rasterization fails for it; in the
failure case no results file is created for the document. -/
theorem output_dirs_created (env : Env) (model prompt fol : String)
    (entries : List String) (st : St) (f : String) (hf : f ∈ entries)
    (hp : strEndsWith f ".pdf" = true) :
    pathJoin fol "converted_pngs" ∈ (pdf_to_text env fol model prompt entries st).dirs
    ∧ pathJoin (pathJoin fol "converted_pngs") (splitextStem f)
        ∈ (pdf_to_text env fol model prompt entries st).dirs
    ∧ (∀ st2 : St,
        (convert_pdf_pages_to_png env (pathJoin fol f)
          (pathJoin (pathJoin fol "converted_pngs") (splitextStem f)) st2.files).2 = false →
        FS.read (processPdf env model prompt (pathJoin fol "converted_pngs") fol st2 f).files
          (pathJoin (pathJoin (pathJoin fol "converted_pngs") (splitextStem f))
            (resultsName (splitextStem f)))
        = FS.read st2.files
            (pathJoin (pathJoin (pathJoin fol "converted_pngs") (splitextStem f))
              (resultsName (splitextStem f)))) := by
  refine ⟨?_, ?_, fun st2 hc => ?_⟩
  · simp only [pdf_to_text]
    exact foldl_dirs_mono env model prompt _ fol entries _ _ (mem_makedirs_self _ _)
  · simp only [pdf_to_text]
    exact foldl_dirs_subdir env model prompt _ fol entries f hf hp _
  · rw [processPdf_fail env model prompt _ fol st2 f hp hc]
    exact convert_read_results_frame env _ _ _ _

/-- Witness for C10: a one-document folder whose rasterization fails still
gets both directories, and no results file. -/
theorem output_dirs_created_witness :
    "d/converted_pngs" ∈ (pdf_to_text envOpenFail "d" "m" "P" ["a.pdf"] ⟨[], []⟩).dirs
    ∧ "d/converted_pngs/a" ∈ (pdf_to_text envOpenFail "d" "m" "P" ["a.pdf"] ⟨[], []⟩).dirs
    ∧ FS.read (processPdf envOpenFail "m" "P" "d/converted_pngs" "d" ⟨[], []⟩ "a.pdf").files
        "d/converted_pngs/a/a_results.txt" = none := by
  have h := output_dirs_created envOpenFail "m" "P" "d" ["a.pdf"] ⟨[], []⟩ "a.pdf"
    (List.mem_singleton.mpr rfl) rfl
  exact ⟨h.1, h.2.1, (h.2.2 ⟨[], []⟩ rfl).trans rfl⟩


theorem keys_write_present (fs : FS) (p c : String)
    (h : fs.any (fun e => e.1 == p) = true) :
    FS.keys (FS.write fs p c) = FS.keys fs := by
  rw [keys_write, ← any_keys, h]
  simp

theorem convert_keys_snd (env : Env) (pdf dir : String) (fs1 fs2 : FS)
    (h : FS.keys fs1 = FS.keys fs2) :
    FS.keys (convert_pdf_pages_to_png env pdf dir fs1).1
      = FS.keys (convert_pdf_pages_to_png env pdf dir fs2).1
    ∧ (convert_pdf_pages_to_png env pdf dir fs1).2
      = (convert_pdf_pages_to_png env pdf dir fs2).2 := by
  cases ho : env.openDoc pdf with
  | error e =>
    simp only [convert_pdf_pages_to_png, ho]
    exact ⟨h, trivial⟩
  | ok n =>
    simp only [convert_pdf_pages_to_png, ho]
    exact convertPages_keys_snd env pdf _ dir (List.range n) fs1 fs2 h

/-- C6: on rasterization success the results file is opened for writing
with truncation: the content it ends up with does not depend on any
previous content at that path (re-running replaces it), while files in the
subfolder that this run does not write, such as PNGs from a prior run, keep
their previous content. -/
theorem results_truncated_on_rerun (env : Env) (model prompt outF fol : String)
    (st : St) (f c : String)
    (h : strEndsWith f ".pdf" = true)
    (hpres : st.files.any (fun e =>
        e.1 == pathJoin (pathJoin outF (splitextStem f))
          (resultsName (splitextStem f))) = true)
    (hsucc : (convert_pdf_pages_to_png env (pathJoin fol f)
        (pathJoin outF (splitextStem f)) st.files).2 = true) :
    (∀ st2 : St, st2.files = FS.write st.files
          (pathJoin (pathJoin outF (splitextStem f)) (resultsName (splitextStem f))) c →
        FS.read (processPdf env model prompt outF fol st2 f).files
          (pathJoin (pathJoin outF (splitextStem f)) (resultsName (splitextStem f)))
        = FS.read (processPdf env model prompt outF fol st f).files
            (pathJoin (pathJoin outF (splitextStem f)) (resultsName (splitextStem f))))
    ∧ (∀ p n, env.openDoc (pathJoin fol f) = .ok n →
        (∀ i, i < n → p ≠ pathJoin (pathJoin outF (splitextStem f))
            (pagePngName (splitextStem (basename (pathJoin fol f))) (i + 1))) →
        p ≠ pathJoin (pathJoin outF (splitextStem f)) (resultsName (splitextStem f)) →
        FS.read (processPdf env model prompt outF fol st f).files p
        = FS.read st.files p) := by
  have E : ∀ stX : St, (convert_pdf_pages_to_png env (pathJoin fol f)
      (pathJoin outF (splitextStem f)) stX.files).2 = true →
      FS.read (processPdf env model prompt outF fol stX f).files
        (pathJoin (pathJoin outF (splitextStem f)) (resultsName (splitextStem f)))
      = some ("" ++ strConcat (List.map
          (blockOf env.run model prompt (pathJoin outF (splitextStem f)))
          ((pySorted (FS.listdir
              (FS.write (convert_pdf_pages_to_png env (pathJoin fol f)
                  (pathJoin outF (splitextStem f)) stX.files).1
                (pathJoin (pathJoin outF (splitextStem f))
                  (resultsName (splitextStem f))) "")
              (pathJoin outF (splitextStem f)))).filter
            (fun nm => strEndsWith nm ".png")))) := by
    intro stX hsX
    rw [processPdf_succ env model prompt outF fol stX f h hsX]
    exact fold_png_content env model prompt _ _ _ _ "" (read_write_self _ _ _)
  constructor
  · intro st2 hfiles
    have hkeys : FS.keys st2.files = FS.keys st.files := by
      rw [hfiles]
      exact keys_write_present _ _ _ hpres
    have hconv := convert_keys_snd env (pathJoin fol f) (pathJoin outF (splitextStem f))
      st2.files st.files hkeys
    have hsucc2 : (convert_pdf_pages_to_png env (pathJoin fol f)
        (pathJoin outF (splitextStem f)) st2.files).2 = true := hconv.2.trans hsucc
    have hk2 : FS.keys (FS.write (convert_pdf_pages_to_png env (pathJoin fol f)
          (pathJoin outF (splitextStem f)) st2.files).1
          (pathJoin (pathJoin outF (splitextStem f)) (resultsName (splitextStem f))) "")
        = FS.keys (FS.write (convert_pdf_pages_to_png env (pathJoin fol f)
            (pathJoin outF (splitextStem f)) st.files).1
            (pathJoin (pathJoin outF (splitextStem f)) (resultsName (splitextStem f))) "") := by
      rw [keys_write, keys_write, hconv.1]
    have hnames : FS.listdir (FS.write (convert_pdf_pages_to_png env (pathJoin fol f)
          (pathJoin outF (splitextStem f)) st2.files).1
          (pathJoin (pathJoin outF (splitextStem f)) (resultsName (splitextStem f))) "")
          (pathJoin outF (splitextStem f))
        = FS.listdir (FS.write (convert_pdf_pages_to_png env (pathJoin fol f)
            (pathJoin outF (splitextStem f)) st.files).1
            (pathJoin (pathJoin outF (splitextStem f)) (resultsName (splitextStem f))) "")
            (pathJoin outF (splitextStem f)) := by
      rw [FS.listdir, FS.listdir, hk2]
    refine (E st2 hsucc2).trans ?_
    rw [hnames]
    exact (E st hsucc).symm
  · intro p n hn hpng hne
    have hcrw : FS.read (convert_pdf_pages_to_png env (pathJoin fol f)
        (pathJoin outF (splitextStem f)) st.files).1 p = FS.read st.files p := by
      simp only [convert_pdf_pages_to_png, hn]
      exact convertPages_read_frame env (pathJoin fol f) _ _ (List.range n) p
        (fun i hi => hpng i (List.mem_range.mp hi)) st.files
    have e3 : FS.read (processPdf env model prompt outF fol st f).files p
        = FS.read (FS.write (convert_pdf_pages_to_png env (pathJoin fol f)
            (pathJoin outF (splitextStem f)) st.files).1
            (pathJoin (pathJoin outF (splitextStem f)) (resultsName (splitextStem f))) "") p := by
      rw [processPdf_succ env model prompt outF fol st f h hsucc]
      exact fold_png_read_other env model prompt _ _ _ p hne _
    exact e3.trans ((read_write_ne _ _ _ _ hne).trans hcrw)

/-- Witness for C6: overwriting the previous results content does not
change the outcome of the re-run, and the stale PNG keeps its content. -/
theorem results_truncated_on_rerun_witness :
    FS.read (processPdf envC6 "m" "P" "d/converted_pngs" "d"
        ⟨FS.write stC6.files "d/converted_pngs/a/a_results.txt" "junk", stC6.dirs⟩
        "a.pdf").files
      "d/converted_pngs/a/a_results.txt"
    = FS.read (processPdf envC6 "m" "P" "d/converted_pngs" "d" stC6 "a.pdf").files
        "d/converted_pngs/a/a_results.txt"
    ∧ FS.read (processPdf envC6 "m" "P" "d/converted_pngs" "d" stC6 "a.pdf").files
        "d/converted_pngs/a/stale.png" = some "s" := by
  have h := results_truncated_on_rerun envC6 "m" "P" "d/converted_pngs" "d" stC6
    "a.pdf" "junk" rfl (by decide) rfl
  refine ⟨h.1 ⟨FS.write stC6.files "d/converted_pngs/a/a_results.txt" "junk", stC6.dirs⟩ rfl, ?_⟩
  refine (h.2 "d/converted_pngs/a/stale.png" 1 rfl ?_ (by decide)).trans rfl
  intro i hi
  interval_cases i
  decide


set_option maxRecDepth 8000 in
set_option maxHeartbeats 1000000 in
/-- C1 (counterexample): for a ten-page document the blocks do not appear in
ascending page order: with a runner echoing its input, the results file
contains the block for page 10 immediately after the block for page 1 and
before the block for page 2, which differs from the ascending-order content. -/
theorem blocks_not_ascending_for_ten_pages :
    FS.read (pdf_to_text env10C "d" "m" "P" ["doc.pdf"] ⟨[], []⟩).files
      "d/converted_pngs/doc/doc_results.txt"
    = some (strConcat (List.map
        (fun k => "P File: d/converted_pngs/doc/doc_page_" ++ natDecimal k ++ ".png\n")
        [1, 10, 2, 3, 4, 5, 6, 7, 8, 9]))
    ∧ strConcat (List.map
        (fun k => "P File: d/converted_pngs/doc/doc_page_" ++ natDecimal k ++ ".png\n")
        [1, 10, 2, 3, 4, 5, 6, 7, 8, 9])
    ≠ strConcat (List.map
        (fun k => "P File: d/converted_pngs/doc/doc_page_" ++ natDecimal k ++ ".png\n")
        [1, 2, 3, 4, 5, 6, 7, 8, 9, 10]) := by
  constructor
  · decide
  · decide


/-! ### Listing and sorting lemmas for the per-document subfolder -/

theorem contains_eq_false_of_not_mem (l : List Char) (a : Char) (h : a ∉ l) :
    l.contains a = false := by
  cases hc : l.contains a
  · rfl
  · exact absurd (List.mem_of_elem_eq_true hc) h

theorem isPrefixOf_self_append (l k : List Char) : l.isPrefixOf (l ++ k) = true := by
  induction l with
  | nil => cases k <;> rfl
  | cons a t ih => simp [List.isPrefixOf, ih]

theorem isPrefixOf_append_of_le (l : List Char) :
    ∀ m k : List Char, l.length ≤ m.length → l.isPrefixOf (m ++ k) = l.isPrefixOf m := by
  induction l with
  | nil => intro m k _; cases m <;> cases k <;> rfl
  | cons a t ih =>
    intro m k hlen
    cases m with
    | nil => simp at hlen
    | cons b u =>
      simp only [List.cons_append, List.isPrefixOf, List.append_eq]
      rw [ih u k (by simpa using hlen)]

theorem strEndsWith_dotpng (x : String) : strEndsWith (x ++ ".png") ".png" = true := by
  simp only [strEndsWith, List.isSuffixOf, String.data_append, List.reverse_append]
  exact isPrefixOf_self_append _ _

theorem strEndsWith_append (s x : String) (h : 4 ≤ x.data.length) :
    strEndsWith (s ++ x) ".png" = strEndsWith x ".png" := by
  simp only [strEndsWith, List.isSuffixOf, String.data_append, List.reverse_append]
  exact isPrefixOf_append_of_le _ _ _ (by simpa using h)

theorem lexLt_append (pre : List Char) (a b : List Char) :
    lexLt (pre ++ a) (pre ++ b) = lexLt a b := by
  induction pre with
  | nil => rfl
  | cons c t ih =>
    simp only [List.cons_append, lexLt, if_neg (lt_irrefl c), List.append_eq, ih]

theorem strLt_append (s x y : String) : strLt (s ++ x) (s ++ y) = strLt x y := by
  simp only [strLt, String.data_append]
  exact lexLt_append _ _ _

theorem insertSorted_map_append (s x : String) (l : List String) :
    insertSorted (s ++ x) (l.map (fun y => s ++ y))
    = (insertSorted x l).map (fun y => s ++ y) := by
  induction l with
  | nil => rfl
  | cons b t ih =>
    simp only [List.map_cons, insertSorted, strLt_append]
    cases hlt : strLt x b
    · simp only [Bool.false_eq_true, if_false, List.map_cons, ih]
    · simp only [if_true, List.map_cons]

theorem pySorted_map_append (s : String) (l : List String) :
    pySorted (l.map (fun y => s ++ y)) = (pySorted l).map (fun y => s ++ y) := by
  induction l with
  | nil => rfl
  | cons a t ih =>
    simp only [pySorted, List.map_cons, List.foldr_cons]
    rw [show (t.map (fun y => s ++ y)).foldr insertSorted []
        = pySorted (t.map (fun y => s ++ y)) from rfl, ih]
    exact insertSorted_map_append s a (pySorted t)

theorem insertSorted_perm (a : String) (l : List String) :
    (insertSorted a l).Perm (a :: l) := by
  induction l with
  | nil => exact List.Perm.refl _
  | cons b t ih =>
    simp only [insertSorted]
    cases hlt : strLt a b
    · simp only [Bool.false_eq_true, if_false]
      exact (List.Perm.cons b ih).trans (List.Perm.swap a b t)
    · simp only [if_true]
      exact List.Perm.refl _

theorem pySorted_perm (l : List String) : (pySorted l).Perm l := by
  induction l with
  | nil => exact List.Perm.refl _
  | cons a t ih =>
    simp only [pySorted, List.foldr_cons]
    exact (insertSorted_perm a _).trans (List.Perm.cons a ih)

theorem filterMap_all_some (F : String → Option String) (G : Nat → String)
    (g2 : Nat → String) (l : List Nat) (h : ∀ i ∈ l, F (g2 i) = some (G i)) :
    (l.map g2).filterMap F = l.map G := by
  induction l with
  | nil => rfl
  | cons i t ih =>
    simp only [List.map_cons, List.filterMap_cons, h i (List.mem_cons_self _ _)]
    rw [ih (fun j hj => h j (List.mem_cons_of_mem _ hj))]

theorem takeWhile_all_cons (p : Char → Bool) (l1 : List Char) (b : Char) (l2 : List Char)
    (h1 : ∀ a ∈ l1, p a = true) (h2 : p b = false) :
    (l1 ++ b :: l2).takeWhile p = l1 := by
  induction l1 with
  | nil => simp [List.takeWhile_cons, h2]
  | cons a t ih =>
    simp only [List.cons_append, List.takeWhile_cons, h1 a (List.mem_cons_self _ _), if_true]
    rw [ih (fun c hc => h1 c (List.mem_cons_of_mem _ hc))]


theorem decChar_ne_slash : ∀ x : Nat, decChar x ≠ '/'
  | 0 => by decide
  | 1 => by decide
  | 2 => by decide
  | 3 => by decide
  | 4 => by decide
  | 5 => by decide
  | 6 => by decide
  | 7 => by decide
  | 8 => by decide
  | n + 9 => by
    show '9' ≠ '/'
    decide

theorem natDecimal_no_slash (f : Nat) : ∀ n : Nat, '/' ∉ decDigitsAux f n := by
  induction f with
  | zero =>
    intro n hm
    simp only [decDigitsAux, List.mem_singleton] at hm
    exact decChar_ne_slash _ hm.symm
  | succ m ih =>
    intro n hm
    by_cases hn : n < 10
    · simp only [decDigitsAux, if_pos hn, List.mem_singleton] at hm
      exact decChar_ne_slash _ hm.symm
    · simp only [decDigitsAux, if_neg hn, List.mem_append, List.mem_singleton] at hm
      rcases hm with hm | hm
      · exact ih _ hm
      · exact decChar_ne_slash _ hm.symm

theorem splitextStem_no_slash (f : String) (h : '/' ∉ f.data) :
    '/' ∉ (splitextStem f).data := by
  simp only [splitextStem]
  split
  · exact h
  · split
    · exact h
    · intro hm
      exact h (List.mem_of_mem_take hm)

theorem pagePngName_no_slash (s : String) (k : Nat) (h : '/' ∉ s.data) :
    '/' ∉ (pagePngName s k).data := by
  intro hm
  simp only [pagePngName, String.data_append, List.mem_append] at hm
  rcases hm with ((h1 | h2) | h3) | h4
  · exact h h1
  · exact (by decide : '/' ∉ ("_page_" : String).data) h2
  · exact natDecimal_no_slash _ _ h3
  · exact (by decide : '/' ∉ (".png" : String).data) h4

theorem resultsName_no_slash (s : String) (h : '/' ∉ s.data) :
    '/' ∉ (resultsName s).data := by
  intro hm
  simp only [resultsName, String.data_append, List.mem_append] at hm
  rcases hm with h1 | h2
  · exact h h1
  · exact (by decide : '/' ∉ ("_results.txt" : String).data) h2

theorem dirEntryName_pathJoin (dir name : String) (h : '/' ∉ name.data) :
    dirEntryName dir (pathJoin dir name) = some name := by
  simp only [dirEntryName, pathJoin]
  have hpre : (dir ++ "/").data = dir.data ++ "/".data := String.data_append dir "/"
  have hdata : (dir ++ "/" ++ name).data = (dir.data ++ "/".data) ++ name.data := by
    rw [String.data_append, String.data_append]
  rw [hpre, hdata, isPrefixOf_self_append, if_pos rfl, List.drop_left,
    contains_eq_false_of_not_mem _ _ h, if_neg Bool.false_ne_true]

theorem listdir_nil_fresh (fs : FS) (dir name : String)
    (hl : FS.listdir fs dir = []) (h : '/' ∉ name.data) :
    fs.any (fun e => e.1 == pathJoin dir name) = false := by
  cases ha : fs.any (fun e => e.1 == pathJoin dir name)
  · rfl
  · exfalso
    rcases List.any_eq_true.mp ha with ⟨e, hmem, he⟩
    simp only [beq_iff_eq] at he
    have hk : pathJoin dir name ∈ FS.keys fs := List.mem_map.mpr ⟨e, hmem, he⟩
    have hn : name ∈ FS.listdir fs dir :=
      List.mem_filterMap.mpr ⟨pathJoin dir name, hk, dirEntryName_pathJoin dir name h⟩
    rw [hl] at hn
    exact absurd hn (List.not_mem_nil _)

theorem basename_pathJoin (fol f : String) (h : '/' ∉ f.data) :
    basename (pathJoin fol f) = f := by
  have hd : (pathJoin fol f).data.reverse = f.data.reverse ++ '/' :: fol.data.reverse := by
    have h1 : (pathJoin fol f).data = (fol.data ++ ['/']) ++ f.data := by
      simp only [pathJoin, String.data_append]
    rw [h1, List.reverse_append, List.reverse_append]
    rfl
  have hAll : ∀ a ∈ f.data.reverse, (a != '/') = true := by
    intro a ha
    have ha2 : a ∈ f.data := List.mem_reverse.mp ha
    have hne : a ≠ '/' := fun heq => h (heq ▸ ha2)
    simp [hne]
  have hSlash : (('/' : Char) != '/') = false := by decide
  rw [basename, hd, takeWhile_all_cons _ _ _ _ hAll hSlash, List.reverse_reverse]

theorem pagePngName_eq (s : String) (k : Nat) : pagePngName s k = s ++ pageSuffix k := by
  rw [pagePngName, pageSuffix, String.append_assoc, String.append_assoc]

theorem pageSuffix_len (k : Nat) : 4 ≤ (pageSuffix k).data.length := by
  have h1 : ("_page_" : String).data.length = 6 := rfl
  have h2 : (".png" : String).data.length = 4 := rfl
  simp only [pageSuffix, String.data_append, List.length_append, h1, h2]
  omega

theorem pageSuffix_png (k : Nat) : strEndsWith (pageSuffix k) ".png" = true := by
  rw [pageSuffix, ← String.append_assoc]
  exact strEndsWith_dotpng _

theorem suffixListing_len (n : Nat) : ∀ x ∈ suffixListing n, 4 ≤ x.data.length := by
  intro x hx
  simp only [suffixListing, List.mem_cons, List.mem_map] at hx
  rcases hx with rfl | ⟨i, _, rfl⟩
  · decide
  · exact pageSuffix_len _

theorem suffixOrder_length (n : Nat) : (suffixOrder n).length = n := by
  rw [suffixOrder,
    ((pySorted_perm (suffixListing n)).filter (fun x => strEndsWith x ".png")).length_eq,
    suffixListing]
  have hres : strEndsWith "_results.txt" ".png" = false := by decide
  simp only [List.filter_cons, hres, Bool.false_eq_true, if_false]
  rw [List.filter_eq_self.mpr]
  · simp
  · intro a ha
    rcases List.mem_map.mp ha with ⟨i, _, rfl⟩
    exact pageSuffix_png _

theorem suffixOrder_ascending (n : Nat) (h : n ≤ 9) :
    suffixOrder n = (List.range n).map (fun i => pageSuffix (i + 1)) := by
  interval_cases n <;> decide

theorem keys_foldl_write_fresh (f g : Nat → String) (hinj : ∀ a b, f a = f b → a = b) :
    ∀ l : List Nat, l.Nodup →
      ∀ fs : FS, (∀ i ∈ l, fs.any (fun e => e.1 == f i) = false) →
        FS.keys (l.foldl (fun acc i => FS.write acc (f i) (g i)) fs)
        = (l.map f).reverse ++ FS.keys fs := by
  intro l
  induction l with
  | nil => intro _ fs _; rfl
  | cons i t ih =>
    intro hnd fs h
    rw [List.foldl_cons]
    have hi := h i (List.mem_cons_self _ _)
    have hwk : FS.keys (FS.write fs (f i) (g i)) = f i :: FS.keys fs := by
      rw [keys_write, ← any_keys, hi]
      simp
    have hfresh : ∀ j ∈ t, (FS.write fs (f i) (g i)).any (fun e => e.1 == f j) = false := by
      intro j hj
      rw [any_keys, hwk, List.any_cons, ← any_keys, h j (List.mem_cons_of_mem _ hj)]
      have hne : f i ≠ f j := fun heq =>
        (List.nodup_cons.mp hnd).1 (hinj i j heq ▸ hj)
      simp [hne]
    rw [ih (List.nodup_cons.mp hnd).2 _ hfresh, hwk]
    simp [List.reverse_cons, List.append_assoc]


/-- C1 (amended): for every document processed by the per-document step of
pdf_to_text — any environment, folder, document name and page count N,
starting from a state whose per-document subfolder is empty — when
rasterization succeeds the results file consists of exactly N blocks, one
per page file, in the lexicographic filename order of the sorted subfolder
listing (suffixOrder); and for every N at most 9 that order is ascending
page order 1..N. -/
theorem results_blocks_lexicographic (env : Env) (model prompt outF fol : String)
    (st : St) (f : String) (n : Nat) (render : Nat → String)
    (hpdf : strEndsWith f ".pdf" = true)
    (hslash : '/' ∉ f.data)
    (hopen : env.openDoc (pathJoin fol f) = .ok n)
    (hrender : ∀ i, i < n → env.getPixmap (pathJoin fol f) i 300 = .ok (render i))
    (hsave : ∀ i, i < n → env.savePix (render i)
        (pathJoin (pathJoin outF (splitextStem f))
          (pagePngName (splitextStem f) (i + 1))) = .ok ())
    (hclean : FS.listdir st.files (pathJoin outF (splitextStem f)) = []) :
    FS.read (processPdf env model prompt outF fol st f).files
      (pathJoin (pathJoin outF (splitextStem f)) (resultsName (splitextStem f)))
    = some (strConcat ((suffixOrder n).map (fun x =>
        blockOf env.run model prompt (pathJoin outF (splitextStem f))
          (splitextStem f ++ x))))
    ∧ (suffixOrder n).length = n
    ∧ (n ≤ 9 → (suffixOrder n).map (fun x => splitextStem f ++ x)
        = (List.range n).map (fun i => pagePngName (splitextStem f) (i + 1))) := by
  have hS : splitextStem (basename (pathJoin fol f)) = splitextStem f := by
    rw [basename_pathJoin fol f hslash]
  have hco : convert_pdf_pages_to_png env (pathJoin fol f)
      (pathJoin outF (splitextStem f)) st.files
      = ((List.range n).foldl (fun acc i => FS.write acc
          (pathJoin (pathJoin outF (splitextStem f))
            (pagePngName (splitextStem f) (i + 1))) (render i)) st.files, true) := by
    simp only [convert_pdf_pages_to_png, hopen, hS]
    exact convertPages_ok env (pathJoin fol f) (splitextStem f)
      (pathJoin outF (splitextStem f)) render (List.range n)
      (fun i hi => ⟨hrender i (List.mem_range.mp hi), hsave i (List.mem_range.mp hi)⟩)
      st.files
  have hsucc : (convert_pdf_pages_to_png env (pathJoin fol f)
      (pathJoin outF (splitextStem f)) st.files).2 = true := by rw [hco]
  have hSslash : '/' ∉ (splitextStem f).data := splitextStem_no_slash f hslash
  have hrespS : '/' ∉ (resultsName (splitextStem f)).data := resultsName_no_slash _ hSslash
  have hinj : ∀ a b : Nat, pathJoin (pathJoin outF (splitextStem f))
      (pagePngName (splitextStem f) (a + 1))
      = pathJoin (pathJoin outF (splitextStem f))
        (pagePngName (splitextStem f) (b + 1)) → a = b := by
    intro a b hab
    have h1 := pathJoin_right_inj _ _ _ hab
    have h2 := pagePngName_inj _ _ _ h1
    omega
  have hfresh : ∀ i ∈ List.range n, st.files.any (fun e => e.1 ==
      pathJoin (pathJoin outF (splitextStem f))
        (pagePngName (splitextStem f) (i + 1))) = false := by
    intro i _
    exact listdir_nil_fresh _ _ _ hclean (pagePngName_no_slash _ _ hSslash)
  have hkeys1 : FS.keys ((List.range n).foldl (fun acc i => FS.write acc
      (pathJoin (pathJoin outF (splitextStem f))
        (pagePngName (splitextStem f) (i + 1))) (render i)) st.files)
      = ((List.range n).map (fun i => pathJoin (pathJoin outF (splitextStem f))
          (pagePngName (splitextStem f) (i + 1)))).reverse ++ FS.keys st.files :=
    keys_foldl_write_fresh _ render hinj (List.range n) (List.nodup_range n)
      st.files hfresh
  have hfreshR : ((List.range n).foldl (fun acc i => FS.write acc
      (pathJoin (pathJoin outF (splitextStem f))
        (pagePngName (splitextStem f) (i + 1))) (render i)) st.files).any
      (fun e => e.1 == pathJoin (pathJoin outF (splitextStem f))
        (resultsName (splitextStem f))) = false := by
    cases hval : ((List.range n).foldl (fun acc i => FS.write acc
        (pathJoin (pathJoin outF (splitextStem f))
          (pagePngName (splitextStem f) (i + 1))) (render i)) st.files).any
        (fun e => e.1 == pathJoin (pathJoin outF (splitextStem f))
          (resultsName (splitextStem f)))
    · rfl
    · exfalso
      rcases List.any_eq_true.mp hval with ⟨e, hmem, hbeq⟩
      simp only [beq_iff_eq] at hbeq
      have hkmem : e.1 ∈ FS.keys ((List.range n).foldl (fun acc i => FS.write acc
          (pathJoin (pathJoin outF (splitextStem f))
            (pagePngName (splitextStem f) (i + 1))) (render i)) st.files) :=
        List.mem_map.mpr ⟨e, hmem, rfl⟩
      rw [hkeys1, List.mem_append, List.mem_reverse] at hkmem
      rcases hkmem with hk1 | hk2
      · rcases List.mem_map.mp hk1 with ⟨i, _, hpi⟩
        rw [hbeq] at hpi
        exact pngPath_ne_resultsPath _ _ _ _ hpi
      · rcases List.mem_map.mp hk2 with ⟨e2, hm2, he2⟩
        have hany : st.files.any (fun x => x.1 == pathJoin (pathJoin outF (splitextStem f))
            (resultsName (splitextStem f))) = true :=
          List.any_eq_true.mpr ⟨e2, hm2, by rw [beq_iff_eq, he2]; exact hbeq⟩
        have hfalse := listdir_nil_fresh st.files _ _ hclean hrespS
        rw [hany] at hfalse
        exact absurd hfalse (by decide)
  have hkeys2 : FS.keys (FS.write ((List.range n).foldl (fun acc i => FS.write acc
      (pathJoin (pathJoin outF (splitextStem f))
        (pagePngName (splitextStem f) (i + 1))) (render i)) st.files)
      (pathJoin (pathJoin outF (splitextStem f)) (resultsName (splitextStem f))) "")
      = pathJoin (pathJoin outF (splitextStem f)) (resultsName (splitextStem f))
        :: (((List.range n).map (fun i => pathJoin (pathJoin outF (splitextStem f))
            (pagePngName (splitextStem f) (i + 1)))).reverse ++ FS.keys st.files) := by
    rw [keys_write, ← any_keys, hfreshR, if_neg Bool.false_ne_true, hkeys1]
  have hld : FS.listdir (FS.write ((List.range n).foldl (fun acc i => FS.write acc
      (pathJoin (pathJoin outF (splitextStem f))
        (pagePngName (splitextStem f) (i + 1))) (render i)) st.files)
      (pathJoin (pathJoin outF (splitextStem f)) (resultsName (splitextStem f))) "")
      (pathJoin outF (splitextStem f))
      = resultsName (splitextStem f)
        :: (List.range n).reverse.map (fun i => pagePngName (splitextStem f) (i + 1)) := by
    rw [FS.listdir, hkeys2]
    simp only [List.filterMap_cons, dirEntryName_pathJoin _ _ hrespS]
    rw [List.filterMap_append]
    have hrest : (FS.keys st.files).filterMap
        (dirEntryName (pathJoin outF (splitextStem f))) = [] := hclean
    rw [hrest, List.append_nil, ← List.map_reverse,
      filterMap_all_some (dirEntryName (pathJoin outF (splitextStem f)))
        (fun i => pagePngName (splitextStem f) (i + 1))
        (fun i => pathJoin (pathJoin outF (splitextStem f))
          (pagePngName (splitextStem f) (i + 1)))
        ((List.range n).reverse)
        (fun i _ => dirEntryName_pathJoin _ _ (pagePngName_no_slash _ _ hSslash))]
  have hmapnames : resultsName (splitextStem f)
      :: (List.range n).reverse.map (fun i => pagePngName (splitextStem f) (i + 1))
      = (suffixListing n).map (fun y => splitextStem f ++ y) := by
    rw [suffixListing, List.map_cons, List.map_map]
    congr 1
    exact List.map_congr_left (fun i _ => pagePngName_eq _ _)
  have hfilter : ((pySorted (suffixListing n)).map (fun y => splitextStem f ++ y)).filter
      (fun nm => strEndsWith nm ".png")
      = (suffixOrder n).map (fun y => splitextStem f ++ y) := by
    rw [suffixOrder, List.filter_map]
    congr 1
    apply List.filter_congr
    intro x hx
    have hx2 : x ∈ suffixListing n := (pySorted_perm (suffixListing n)).mem_iff.mp hx
    exact strEndsWith_append _ x (suffixListing_len n x hx2)
  refine ⟨?_, suffixOrder_length n, fun h9 => ?_⟩
  · rw [processPdf_succ env model prompt outF fol st f hpdf hsucc, hco]
    dsimp only
    rw [hld, hmapnames, pySorted_map_append]
    refine (fold_png_content env model prompt (pathJoin outF (splitextStem f))
      (pathJoin (pathJoin outF (splitextStem f)) (resultsName (splitextStem f)))
      ((pySorted (suffixListing n)).map (fun y => splitextStem f ++ y)) _ ""
      (read_write_self _ _ _)).trans ?_
    rw [hfilter, String.empty_append, List.map_map]
    rfl
  · rw [suffixOrder_ascending n h9, List.map_map]
    exact List.map_congr_left (fun i _ => (pagePngName_eq _ _).symm)

/-- Witness for the amended C1 at a concrete nine-page document. -/
theorem results_blocks_lexicographic_witness :
    FS.read (processPdf envC1W "m" "P" "d/converted_pngs" "d" ⟨[], []⟩ "doc.pdf").files
      "d/converted_pngs/doc/doc_results.txt"
    = some (strConcat ((suffixOrder 9).map (fun x =>
        blockOf envC1W.run "m" "P" "d/converted_pngs/doc" ("doc" ++ x))))
    ∧ (suffixOrder 9).length = 9
    ∧ (suffixOrder 9).map (fun x => "doc" ++ x)
      = (List.range 9).map (fun i => pagePngName "doc" (i + 1)) := by
  have h := results_blocks_lexicographic envC1W "m" "P" "d/converted_pngs" "d" ⟨[], []⟩
    "doc.pdf" 9 (fun _ => "") rfl (by decide) rfl (fun i _ => rfl) (fun i _ => rfl) rfl
  exact ⟨h.1, h.2.1, h.2.2 (by omega)⟩

end InvoicePipeline
